import Mathlib

/-!
Shallow embedding of the django-boundaryservice repository
(`boundaryservice/models.py`, `boundaryservice/resources.py`) and proofs of
the specification claims about it.

Python strings are modelled as Lean `String` (a wrapper around `List Char`);
Python dicts of a record's serialized data are modelled as association lists
with unique keys; the Django ORM queryset of already-persisted slugs is
modelled as a `List String`; Python exceptions are modelled with `Except`.
-/

namespace BoundarySvc

/-- Bridge: `String` equality from equality of the underlying char lists. -/
theorem str_ext {a b : String} (h : a.data = b.data) : a = b :=
  congrArg String.mk h

/-- Bridge: the char data of a concatenation. -/
theorem data_app (a b : String) : (a ++ b).data = a.data ++ b.data := by
  cases a; cases b; rfl

/-- Bridge: `String.length` as the length of the char data. -/
theorem len_data (a : String) : a.length = a.data.length := rfl

/-- Bridge: length of a concatenation. -/
theorem len_app (a b : String) : (a ++ b).length = a.length + b.length := by
  rw [len_data, len_data, len_data, data_app]
  exact List.length_append _ _

/-- Python `str.split(sep)` on a single-character separator, over char lists.
`''.split(',') == ['']`, i.e. the result is always nonempty. -/
def splitOnChar (sep : Char) : List Char → List (List Char)
  | [] => [[]]
  | c :: cs =>
    match splitOnChar sep cs with
    | [] => [[]]
    | w :: ws => if c = sep then [] :: w :: ws else (c :: w) :: ws

/-- Python `str.split(sep)` for strings. -/
def pySplit (s : String) (sep : Char) : List String :=
  (splitOnChar sep s.data).map (fun l => ⟨l⟩)

/-- Python whitespace for `str.strip()`. -/
def isPySpace (c : Char) : Bool :=
  c = ' ' || c = '\t' || c = '\n' || c = '\r' || c = '\x0b' || c = '\x0c'

/-- Python `str.strip()`. -/
def pyStrip (s : String) : String :=
  ⟨((s.data.dropWhile isPySpace).reverse.dropWhile isPySpace).reverse⟩

/-- Python slicing `s[:i]` with a possibly negative index `i`. -/
def pyTake (s : String) (i : Int) : String :=
  if 0 ≤ i then ⟨s.data.take i.toNat⟩
  else ⟨s.data.take ((s.data.length : Int) + i).toNat⟩

end BoundarySvc

namespace BoundarySvc

/-! ### Decimal representation (Python `str` of an `int`, `'%s' % n`) -/

/-- The ASCII character of a decimal digit. -/
def decChar (d : Nat) : Char := Char.ofNat (48 + d)

/-- Accumulator loop producing the decimal digits of `n` in front of `acc`. -/
def decAux : Nat → List Char → List Char
  | 0, acc => acc
  | n + 1, acc => decAux ((n + 1) / 10) (decChar ((n + 1) % 10) :: acc)
decreasing_by exact Nat.div_lt_self (Nat.succ_pos n) (by norm_num)

/-- Structural (fuel-indexed) version of `decAux`; with fuel at least `n` it
computes the same digits and lets the kernel evaluate concrete cases. -/
def decCore : Nat → Nat → List Char → List Char
  | 0, _, acc => acc
  | _ + 1, 0, acc => acc
  | fuel + 1, n + 1, acc => decCore fuel ((n + 1) / 10) (decChar ((n + 1) % 10) :: acc)

/-- Python `str(n)` for a nonnegative integer `n`. -/
def pyStr (n : Nat) : String :=
  if n = 0 then "0" else ⟨decCore n n []⟩

/-- Value of a list of decimal digit characters (Python `int` of the string). -/
def digitsVal (l : List Char) : Nat :=
  l.foldl (fun a c => 10 * a + (c.toNat - 48)) 0

theorem decAux_append (n : Nat) :
    ∀ acc, decAux n acc = decAux n [] ++ acc := by
  induction n using Nat.strong_induction_on with
  | _ n ih =>
    intro acc
    match n with
    | 0 => simp [decAux]
    | m + 1 =>
      rw [decAux, decAux]
      have hlt : (m + 1) / 10 < m + 1 := Nat.div_lt_self (Nat.succ_pos m) (by norm_num)
      rw [ih _ hlt (decChar ((m + 1) % 10) :: acc), ih _ hlt [decChar ((m + 1) % 10)]]
      simp

theorem digitsVal_append (l1 l2 : List Char) :
    digitsVal (l1 ++ l2) = l2.foldl (fun a c => 10 * a + (c.toNat - 48)) (digitsVal l1) := by
  simp [digitsVal, List.foldl_append]

theorem digitsVal_snoc (l : List Char) (c : Char) :
    digitsVal (l ++ [c]) = 10 * digitsVal l + (c.toNat - 48) := by
  simp [digitsVal_append, digitsVal]

theorem decCore_eq : ∀ fuel n acc, n ≤ fuel → decCore fuel n acc = decAux n acc := by
  intro fuel
  induction fuel with
  | zero =>
    intro n acc h
    have : n = 0 := by omega
    subst this
    simp [decCore, decAux]
  | succ f ih =>
    intro n acc h
    match n with
    | 0 => simp [decCore, decAux]
    | m + 1 =>
      rw [decCore, decAux]
      exact ih _ _ (by
        have : (m + 1) / 10 < m + 1 := Nat.div_lt_self (Nat.succ_pos m) (by norm_num)
        omega)

theorem pyStr_def (n : Nat) : pyStr n = if n = 0 then "0" else ⟨decAux n []⟩ := by
  by_cases h : n = 0
  · simp [pyStr, h]
  · simp only [pyStr, if_neg h]
    rw [decCore_eq n n [] (le_refl n)]

theorem decChar_toNat {d : Nat} (hd : d < 10) : (decChar d).toNat = 48 + d := by
  interval_cases d <;> decide

theorem digitsVal_decAux (n : Nat) : digitsVal (decAux n []) = n := by
  induction n using Nat.strong_induction_on with
  | _ n ih =>
    match n with
    | 0 => simp [decAux, digitsVal]
    | m + 1 =>
      rw [decAux, decAux_append]
      have hlt : (m + 1) / 10 < m + 1 := Nat.div_lt_self (Nat.succ_pos m) (by norm_num)
      rw [digitsVal_snoc, ih _ hlt, decChar_toNat (Nat.mod_lt _ (by norm_num))]
      omega

theorem digitsVal_pyStr (n : Nat) : digitsVal (pyStr n).data = n := by
  by_cases h : n = 0
  · subst h; decide
  · rw [pyStr_def]
    simp only [if_neg h]
    exact digitsVal_decAux n

theorem pyStr_inj {m n : Nat} (h : pyStr m = pyStr n) : m = n := by
  have := congrArg (fun s => digitsVal s.data) h
  simpa [digitsVal_pyStr] using this

theorem decAux_digit_range (n : Nat) :
    ∀ c ∈ decAux n [], 48 ≤ c.toNat ∧ c.toNat ≤ 57 := by
  induction n using Nat.strong_induction_on with
  | _ n ih =>
    match n with
    | 0 => simp [decAux]
    | m + 1 =>
      rw [decAux, decAux_append]
      intro c hc
      rcases List.mem_append.1 hc with h1 | h1
      · have hlt : (m + 1) / 10 < m + 1 := Nat.div_lt_self (Nat.succ_pos m) (by norm_num)
        exact ih _ hlt c h1
      · have : c = decChar ((m + 1) % 10) := by simpa using h1
        subst this
        rw [decChar_toNat (Nat.mod_lt _ (by norm_num))]
        omega

theorem pyStr_digit_range (n : Nat) :
    ∀ c ∈ (pyStr n).data, 48 ≤ c.toNat ∧ c.toNat ≤ 57 := by
  by_cases h : n = 0
  · subst h; decide
  · rw [pyStr_def]
    simp only [if_neg h]
    exact decAux_digit_range n

theorem pyStr_no_hyphen (n : Nat) : ∀ c ∈ (pyStr n).data, (c != '-') = true := by
  intro c hc
  have := pyStr_digit_range n c hc
  have hne : c ≠ '-' := by
    intro he
    subst he
    exact absurd this.1 (by decide)
  simpa using hne

theorem decAux_length_le (n : Nat) :
    ∀ acc, acc.length ≤ (decAux n acc).length := by
  induction n using Nat.strong_induction_on with
  | _ n ih =>
    intro acc
    match n with
    | 0 => simp [decAux]
    | m + 1 =>
      rw [decAux]
      have hlt : (m + 1) / 10 < m + 1 := Nat.div_lt_self (Nat.succ_pos m) (by norm_num)
      calc acc.length ≤ (decChar ((m + 1) % 10) :: acc).length := by simp
        _ ≤ _ := ih _ hlt _

theorem pyStr_ne_empty (n : Nat) : (pyStr n).data ≠ [] := by
  by_cases h : n = 0
  · subst h; decide
  · rw [pyStr_def]
    simp only [if_neg h]
    match n, h with
    | m + 1, _ =>
      rw [decAux]
      intro hcon
      have := decAux_length_le ((m + 1) / 10) (decChar ((m + 1) % 10) :: [])
      rw [hcon] at this
      simp at this

/-- Digit count bound: `n < 10 ^ d` gives at most `d` decimal digits. -/
theorem pyStr_length_le {n d : Nat} (hd : 1 ≤ d) (h : n < 10 ^ d) :
    (pyStr n).length ≤ d := by
  induction d generalizing n with
  | zero => omega
  | succ d ih =>
    by_cases h0 : n = 0
    · subst h0
      have h1 : (pyStr 0).length = 1 := rfl
      omega
    · rw [pyStr_def]
      simp only [if_neg h0, len_data]
      match n, h0 with
      | m + 1, _ =>
        rw [decAux, decAux_append]
        by_cases hd0 : d = 0
        · subst hd0
          have : (m + 1) / 10 = 0 := by omega
          simp [this, decAux]
        · have hq : (m + 1) / 10 < 10 ^ d := by
            apply (Nat.div_lt_iff_lt_mul (by norm_num : 0 < 10)).2
            calc m + 1 < 10 ^ (d + 1) := h
              _ = 10 ^ d * 10 := by ring
          have hih := ih (Nat.one_le_iff_ne_zero.2 hd0) hq
          by_cases hq0 : (m + 1) / 10 = 0
          · simp [hq0, decAux]
          · rw [pyStr_def] at hih
            simp only [if_neg hq0, len_data] at hih
            simp only [List.length_append, List.length_cons, List.length_nil]
            omega

end BoundarySvc

namespace BoundarySvc

/-! ### Slug resolver (`boundaryservice/models.py`, `SluggedModel`) -/

/-- Lowercasing of an ASCII character (part of the slug normalization). -/
def toLowerCh (c : Char) : Char :=
  if 65 ≤ c.toNat ∧ c.toNat ≤ 90 then Char.ofNat (c.toNat + 32) else c

/-- An ASCII lowercase letter or digit after lowercasing. -/
def isAlnumL (c : Char) : Bool :=
  (48 ≤ c.toNat && c.toNat ≤ 57) || (97 ≤ c.toNat && c.toNat ≤ 122)

/-- Join words with single hyphens. -/
def joinHyphen : List (List Char) → List Char
  | [] => []
  | [w] => w
  | w :: ws => w ++ '-' :: joinHyphen ws

/-- Modelled from the spec: `django.template.defaultfilters.slugify` is Django
library code, not part of this repository's sources; per the spec it
normalizes candidate text "into a URL-safe lowercase slug (strip diacritics,
collapse non-alphanumerics to hyphens)". This ASCII-level model lowercases,
turns every non-alphanumeric character into a separator, collapses separator
runs into single hyphens and strips them from both ends. -/
def slugify (s : String) : String :=
  let mapped := s.data.map (fun c =>
    let c' := toLowerCh c
    if isAlnumL c' then c' else ' ')
  ⟨joinHyphen ((splitOnChar ' ' mapped).filter (fun w => !w.isEmpty))⟩

/-- The suffix `'-%s' % next` appended on a slug collision
(`models.py`, line 53). -/
def endStr (n : Nat) : String := "-" ++ pyStr n

/-- The truncation guard of `models.py` lines 54-55: if base plus suffix
would exceed 256 characters, keep only `slug[:200-len(end)]` of the base. -/
def truncBase (base : String) (n : Nat) : String :=
  if base.length + (endStr n).length > 256 then
    pyTake base (200 - ((endStr n).length : Int))
  else base

/-- The candidate slug tried for suffix number `n`
(`models.py` lines 52-56: rebuilt from the original base every iteration). -/
def candidate (base : String) (n : Nat) : String :=
  truncBase base n ++ endStr n

/-- The `while` loop of `models.py` lines 49-57, with explicit fuel: starting
at suffix number `n`, return the first candidate not among the existing
slugs (the fuel is an upper bound on the iterations needed; the Python loop
has none and terminates because candidates for distinct suffix numbers are
distinct strings while the existing slugs are finitely many). -/
def slugLoop (base : String) (existing : List String) : Nat → Nat → String
  | 0, n => candidate base n
  | fuel + 1, n =>
    if candidate base n ∈ existing then slugLoop base existing fuel (n + 1)
    else candidate base n

/-- `SluggedModel.unique_slug` (`models.py` lines 30-58). `slug` is the
current value of the entity's slug field (`''` when unset), `slugTxt` the
text obtained from the `get_slug_text`/`__unicode__`/`__str__` chain
(`none` models the unreachable `else: return` branch), `existing` the slugs
already persisted for this entity type. Returns the slug field's value after
the call. -/
def unique_slug (slug : String) (slugTxt : Option String) (existing : List String) : String :=
  if slug ≠ "" then slug
  else
    match slugTxt with
    | none => slug
    | some txt =>
      let original := slugify txt
      if existing.count original = 0 then original
      else slugLoop original existing (existing.length + 1) 2

/-- The dedicated error of `SluggedModel.save` (`models.py` line 27):
`raise ValueError("Slug may not be blank [%s]" % str(self))`. The spec's
error taxonomy names this invalid-input failure `InvalidInputError`. -/
inductive SaveError where
  | blankSlug : SaveError
deriving DecidableEq

/-- `SluggedModel.save` (`models.py` lines 25-28): compute the slug, refuse a
blank one, otherwise persist. The returned string is the slug stored by
`super().save()`. -/
def save (slug : String) (slugTxt : Option String) (existing : List String) :
    Except SaveError String :=
  let s := unique_slug slug slugTxt existing
  if s = "" then .error .blankSlug else .ok s

/-- Saving a sequence of fresh entities (blank slug field) with identical
candidate text, front-most saved last; each successful save persists its slug. -/
def saveSeq (txt : String) : Nat → List String
  | 0 => []
  | k + 1 =>
    let prev := saveSeq txt k
    match save "" (some txt) prev with
    | .ok s => s :: prev
    | .error _ => prev

/-- The slug the spec's pattern `base`, `base-2`, `base-3`, … assigns to the
`j`-th entity. -/
def patSlug (base : String) (j : Nat) : String :=
  if j ≤ 1 then base else base ++ endStr j

/-- The list of pattern slugs for the first `k` entities, latest first
(matching the order `saveSeq` accumulates persisted slugs). -/
def patList (base : String) : Nat → List String
  | 0 => []
  | k + 1 => patSlug base (k + 1) :: patList base k

end BoundarySvc

namespace BoundarySvc

/-! ### Distinctness of candidate slugs and loop characterization -/

theorem takeWhile_hyphen_free (l1 l2 : List Char)
    (h : ∀ c ∈ l1, (c != '-') = true) :
    (l1 ++ '-' :: l2).takeWhile (fun c => c != '-') = l1 := by
  induction l1 with
  | nil => simp [List.takeWhile]
  | cons c cs ih =>
    have hc := h c (by simp)
    rw [List.cons_append, List.takeWhile_cons, hc]
    simp only [if_true]
    rw [ih (fun c hc => h c (by simp [hc]))]

theorem endStr_data (n : Nat) : (endStr n).data = '-' :: (pyStr n).data := by
  rw [endStr, data_app]
  rfl

theorem endStr_inj {m n : Nat} (h : endStr m = endStr n) : m = n := by
  have hd := congrArg String.data h
  rw [endStr_data, endStr_data] at hd
  exact pyStr_inj (str_ext (List.cons_injective hd))

theorem endStr_len_pos (n : Nat) : 1 ≤ (endStr n).length := by
  rw [len_data, endStr_data]
  simp

/-- Candidates built for distinct suffix numbers are distinct strings: the
digits after the final hyphen recover the suffix number. -/
theorem candidate_inj (base : String) {m n : Nat}
    (h : candidate base m = candidate base n) : m = n := by
  have hd := congrArg String.data h
  rw [candidate, candidate, data_app, data_app, endStr_data, endStr_data] at hd
  have hrev := congrArg List.reverse hd
  rw [List.reverse_append, List.reverse_append, List.reverse_cons,
    List.reverse_cons] at hrev
  simp only [List.append_assoc, List.singleton_append] at hrev
  have htw := congrArg (List.takeWhile (fun c => c != '-')) hrev
  rw [takeWhile_hyphen_free _ _ (by
        intro c hc
        exact pyStr_no_hyphen m c (List.mem_reverse.1 hc)),
      takeWhile_hyphen_free _ _ (by
        intro c hc
        exact pyStr_no_hyphen n c (List.mem_reverse.1 hc))] at htw
  exact pyStr_inj (str_ext (List.reverse_injective htw))

/-- Pigeonhole: among the first `existing.length + 1` candidates at least one
is not an existing slug. -/
theorem exists_free_candidate (base : String) (existing : List String) :
    ∃ k ≤ existing.length, candidate base (2 + k) ∉ existing := by
  by_contra hcon
  push_neg at hcon
  have hsub : ((List.range (existing.length + 1)).map
      (fun k => candidate base (2 + k))) ⊆ existing := by
    intro s hs
    rcases List.mem_map.1 hs with ⟨k, hk, rfl⟩
    exact hcon k (by have := List.mem_range.1 hk; omega)
  have hnd : ((List.range (existing.length + 1)).map
      (fun k => candidate base (2 + k))).Nodup := by
    refine List.Nodup.map ?_ (List.nodup_range _)
    intro a b hab
    have := candidate_inj base hab
    omega
  have := (List.subperm_of_subset hnd hsub).length_le
  simp only [List.length_map, List.length_range] at this
  omega

theorem slugLoop_eq (base : String) (existing : List String) :
    ∀ k fuel n, k ≤ fuel →
      candidate base (n + k) ∉ existing →
      (∀ j < k, candidate base (n + j) ∈ existing) →
      slugLoop base existing fuel n = candidate base (n + k)
  | 0, fuel, n, _, hfree, _ => by
    rw [Nat.add_zero]
    match fuel with
    | 0 => simp [slugLoop]
    | f + 1 =>
      rw [slugLoop]
      simp only [if_neg (by simpa using hfree)]
  | k + 1, fuel, n, hk, hfree, hbusy => by
    match fuel with
    | 0 => omega
    | f + 1 =>
      rw [slugLoop]
      simp only [if_pos (by simpa using hbusy 0 (Nat.succ_pos k))]
      have := slugLoop_eq base existing k f (n + 1) (by omega)
        (by rw [show n + 1 + k = n + (k + 1) by omega]; exact hfree)
        (fun j hj => by
          rw [show n + 1 + j = n + (j + 1) by omega]
          exact hbusy (j + 1) (by omega))
      rw [this, show n + 1 + k = n + (k + 1) by omega]

theorem slugLoop_spec (base : String) (existing : List String) :
    ∀ fuel n, (∃ k ≤ fuel, candidate base (n + k) ∉ existing) →
      ∃ k ≤ fuel, slugLoop base existing fuel n = candidate base (n + k) ∧
        candidate base (n + k) ∉ existing
  | 0, n, h => by
    rcases h with ⟨k, hk, hfree⟩
    have : k = 0 := by omega
    subst this
    exact ⟨0, le_refl 0, by simp [slugLoop], hfree⟩
  | fuel + 1, n, h => by
    by_cases hmem : candidate base n ∈ existing
    · rcases h with ⟨k, hk, hfree⟩
      have hk0 : k ≠ 0 := by
        intro h0
        subst h0
        simp at hfree
        exact hfree hmem
      have := slugLoop_spec base existing fuel (n + 1)
        ⟨k - 1, by omega, by rw [show n + 1 + (k - 1) = n + k by omega]; exact hfree⟩
      rcases this with ⟨k', hk', heq, hfree'⟩
      refine ⟨k' + 1, by omega, ?_, ?_⟩
      · rw [slugLoop]
        simp only [if_pos (by simpa using hmem)]
        rw [heq, show n + 1 + k' = n + (k' + 1) by omega]
      · rw [show n + (k' + 1) = n + 1 + k' by omega]
        exact hfree'
    · refine ⟨0, by omega, ?_, by simpa using hmem⟩
      rw [slugLoop]
      simp [hmem]

end BoundarySvc

namespace BoundarySvc

/-! ### Response shaper (`boundaryservice/resources.py`, `BoundaryResource`) -/

/-- A serialized record (`obj.data` / `bundle.data`): a Python dict modelled
as an association list whose keys are unique. -/
abbrev Bundle (α : Type) := List (String × α)

/-- Python `del d[k]`: remove the key, raising `KeyError` (`none`) when the
key is absent. -/
def pyDel {α : Type} (k : String) (d : Bundle α) : Option (Bundle α) :=
  match d.lookup k with
  | some _ => some (d.filter (fun p => p.1 != k))
  | none => none

/-- The `try: del obj.data[exclude] except: pass` of `resources.py`
lines 79-82: best-effort deletion that never raises. -/
def tryDel {α : Type} (k : String) (d : Bundle α) : Bundle α :=
  match pyDel k d with
  | some d' => d'
  | none => d

/-- The shape-field trimming shared by both response paths
(`resources.py` lines 69-73 and 93-97): drop `simple_shape` unless the
requested shape type is `simple`, then drop `shape` unless it is `full`.
Each `del` raises (`none`) if the field is absent. -/
def shapePhase {α : Type} (st : String) (d : Bundle α) : Option (Bundle α) :=
  match (if st ≠ "simple" then pyDel "simple_shape" d else some d) with
  | none => none
  | some d1 => if st ≠ "full" then pyDel "shape" d1 else some d1

/-- `BoundaryResource.alter_detail_data_to_serialize` (`resources.py` lines
86-99): `shape_type` is read from the query string with default `simple`;
only the shape fields are trimmed. -/
def alter_detail {α : Type} (shapeType? : Option String) (d : Bundle α) :
    Option (Bundle α) :=
  shapePhase (shapeType?.getD "simple") d

/-- The per-object loop with Python exception propagation: stops at the
first failing deletion. -/
def mapOpt {α β : Type} (f : α → Option β) : List α → Option (List β)
  | [] => some []
  | a :: l =>
    match f a, mapOpt f l with
    | some b, some l' => some (b :: l')
    | _, _ => none

/-- `request.GET.get('excludes', "").strip().split(',')`
(`resources.py` line 75). -/
def parseExcludes (excludes? : Option String) : List String :=
  pySplit (pyStrip (excludes?.getD "")) ','

/-- The excludes deletions applied to one record, in list order. -/
def applyExcludes {α : Type} (exs : List String) (d : Bundle α) : Bundle α :=
  exs.foldl (fun d k => tryDel k d) d

/-- `BoundaryResource.alter_list_data_to_serialize` (`resources.py` lines
61-84): trim shape fields of every object, then apply the best-effort
excludes deletions (the outer loop runs over the excludes list, the inner
one over the objects). -/
def alter_list {α : Type} (shapeType? excludes? : Option String)
    (objs : List (Bundle α)) : Option (List (Bundle α)) :=
  match mapOpt (shapePhase (shapeType?.getD "simple")) objs with
  | none => none
  | some objs1 =>
    let exs := parseExcludes excludes?
    some (if exs.isEmpty then objs1
          else exs.foldl (fun os k => os.map (tryDel k)) objs1)

/-! ### Query translator, `near` branch (`resources.py` lines 121-129) -/

/-- The Python exceptions the `near` branch can raise: unpacking
`lat, lon, range = filters['near'].split(',')` raises `ValueError` when the
split does not give three parts, and `re.match('([0-9]+)', range).group(1)`
raises `AttributeError` when the regex does not match (`re.match` returned
`None`). Neither is a dedicated filter-validation error; the repository
defines no such error type. -/
inductive PyExc where
  | attributeError : PyExc
  | valueError : PyExc
deriving DecidableEq

/-- A digit as matched by the regex `[0-9]`. -/
def isDig (c : Char) : Bool := 48 ≤ c.toNat && c.toNat ≤ 57

/-- The translated `near` filter: the WKT point and the
`D(**{unit: numeral})` distance passed with `shape__distance_lte`. -/
structure NearFilter where
  wkt : String
  unit : String
  magnitude : Nat
deriving DecidableEq

instance : DecidableEq (Except PyExc NearFilter) := fun a b =>
  match a, b with
  | .ok x, .ok y => decidable_of_iff (x = y) (by simp)
  | .error x, .error y => decidable_of_iff (x = y) (by simp)
  | .ok _, .error _ => isFalse (by simp)
  | .error _, .ok _ => isFalse (by simp)

/-- The `'near' in filters` branch of `BoundaryResource.build_filters`
(`resources.py` lines 121-129): split the value on commas into
`lat, lon, range`, build the WKT point `POINT(lon lat)`, take the leading
digits of `range` as the magnitude (greedy `re.match('([0-9]+)')`), the rest
as the unit. -/
def near_translate (v : String) : Except PyExc NearFilter :=
  match pySplit v ',' with
  | [lat, lon, rng] =>
    let numeral := rng.data.takeWhile isDig
    if numeral.isEmpty then .error .attributeError
    else .ok { wkt := "POINT(" ++ lon ++ " " ++ lat ++ ")",
               unit := ⟨rng.data.drop numeral.length⟩,
               magnitude := digitsVal numeral }
  | _ => .error .valueError

end BoundarySvc

namespace BoundarySvc

/-! ### Lemmas about record shaping -/

theorem lookup_filter_self {α : Type} (k : String) (d : Bundle α) :
    (d.filter (fun p => p.1 != k)).lookup k = none := by
  induction d with
  | nil => rfl
  | cons p l ih =>
    by_cases h : p.1 = k
    · simp [List.filter, h, ih]
    · simp only [List.filter_cons]
      have hb : (p.1 != k) = true := by simpa using h
      rw [hb]
      simp only [if_true]
      rw [List.lookup]
      have : (k == p.1) = false := by simpa using (Ne.symm h)
      rw [this]
      exact ih

theorem lookup_filter_none {α : Type} (k : String) (p : (String × α) → Bool)
    (d : Bundle α) (h : d.lookup k = none) : (d.filter p).lookup k = none := by
  induction d with
  | nil => rfl
  | cons q l ih =>
    rw [List.lookup] at h
    rcases hkq : (k == q.1) with _ | _
    · rw [hkq] at h
      simp only [List.filter_cons]
      by_cases hp : p q
      · rw [if_pos hp, List.lookup, hkq]
        exact ih h
      · rw [if_neg hp]
        exact ih h
    · rw [hkq] at h
      simp at h

theorem pyDel_lookup_self {α : Type} {k : String} {d d' : Bundle α}
    (h : pyDel k d = some d') : d'.lookup k = none := by
  rw [pyDel] at h
  rcases hl : d.lookup k with _ | v
  · rw [hl] at h; cases h
  · rw [hl] at h
    cases h
    exact lookup_filter_self k d

theorem pyDel_lookup_none {α : Type} {j k : String} {d d' : Bundle α}
    (h : pyDel j d = some d') (hk : d.lookup k = none) : d'.lookup k = none := by
  rw [pyDel] at h
  rcases hl : d.lookup j with _ | v
  · rw [hl] at h; cases h
  · rw [hl] at h
    cases h
    exact lookup_filter_none k _ d hk

theorem tryDel_lookup_none {α : Type} (j k : String) (d : Bundle α)
    (hk : d.lookup k = none) : (tryDel j d).lookup k = none := by
  rw [tryDel]
  rcases hd : pyDel j d with _ | d'
  · exact hk
  · exact pyDel_lookup_none hd hk

theorem tryDel_of_absent {α : Type} (k : String) (d : Bundle α)
    (hk : d.lookup k = none) : tryDel k d = d := by
  rw [tryDel, pyDel, hk]

theorem lookup_filter_ne {α : Type} {k f : String} (h : f ≠ k) (d : Bundle α) :
    (d.filter (fun p => p.1 != k)).lookup f = d.lookup f := by
  induction d with
  | nil => rfl
  | cons q l ih =>
    simp only [List.filter_cons]
    by_cases hq : q.1 = k
    · have hb : (q.1 != k) = false := by simpa using hq
      rw [hb]
      simp only [Bool.false_eq_true, if_false]
      rw [List.lookup]
      have : (f == q.1) = false := by
        apply beq_eq_false_iff_ne.2
        rw [hq]
        exact h
      rw [this]
      exact ih
    · have hb : (q.1 != k) = true := by simpa using hq
      rw [hb]
      simp only [if_true]
      rw [List.lookup, List.lookup]
      rcases hfq : (f == q.1) with _ | _
      · exact ih
      · rfl

theorem tryDel_lookup_ne {α : Type} {k f : String} (h : f ≠ k) (d : Bundle α) :
    (tryDel k d).lookup f = d.lookup f := by
  rw [tryDel, pyDel]
  rcases hl : d.lookup k with _ | v
  · rfl
  · exact lookup_filter_ne h d

theorem applyExcludes_lookup_none {α : Type} (exs : List String) (k : String) :
    ∀ d : Bundle α, d.lookup k = none → (applyExcludes exs d).lookup k = none := by
  induction exs with
  | nil => intro d h; exact h
  | cons e es ih =>
    intro d h
    rw [applyExcludes, List.foldl_cons]
    exact ih _ (tryDel_lookup_none e k d h)

theorem applyExcludes_lookup_not_mem {α : Type} {exs : List String} {f : String}
    (hf : f ∉ exs) : ∀ d : Bundle α, (applyExcludes exs d).lookup f = d.lookup f := by
  induction exs with
  | nil => intro d; rfl
  | cons e es ih =>
    intro d
    rw [applyExcludes, List.foldl_cons]
    have hne : f ≠ e := fun hc => hf (by simp [hc])
    have hes : f ∉ es := fun hc => hf (by simp [hc])
    rw [show es.foldl (fun d k => tryDel k d) (tryDel e d) =
      applyExcludes es (tryDel e d) from rfl]
    rw [ih hes (tryDel e d), tryDel_lookup_ne hne]

theorem shapePhase_shape_none {α : Type} {st : String} {d d' : Bundle α}
    (h : shapePhase st d = some d') (hst : st ≠ "full") :
    d'.lookup "shape" = none := by
  rw [shapePhase] at h
  rcases h1 : (if st ≠ "simple" then pyDel "simple_shape" d else some d) with _ | d1
  · rw [h1] at h; cases h
  · rw [h1] at h
    simp only [if_pos hst] at h
    exact pyDel_lookup_self h

theorem shapePhase_simple_shape_none {α : Type} {st : String} {d d' : Bundle α}
    (h : shapePhase st d = some d') (hst : st ≠ "simple") :
    d'.lookup "simple_shape" = none := by
  rw [shapePhase] at h
  rcases h1 : (if st ≠ "simple" then pyDel "simple_shape" d else some d) with _ | d1
  · rw [h1] at h; cases h
  · rw [h1] at h
    simp only [if_pos hst] at h1
    have hd1 : d1.lookup "simple_shape" = none := pyDel_lookup_self h1
    by_cases hf : st ≠ "full"
    · simp only [if_pos hf] at h
      exact pyDel_lookup_none h hd1
    · simp only [if_neg hf] at h
      cases h
      exact hd1

theorem mapOpt_mem {α β : Type} {f : α → Option β} :
    ∀ {l : List α} {l' : List β}, mapOpt f l = some l' →
      ∀ b ∈ l', ∃ a ∈ l, f a = some b := by
  intro l
  induction l with
  | nil =>
    intro l' h b hb
    rw [mapOpt] at h
    cases h
    cases hb
  | cons a t ih =>
    intro l' h b hb
    rw [mapOpt] at h
    rcases ha : f a with _ | b0
    · rw [ha] at h; cases h
    · rw [ha] at h
      rcases ht : mapOpt f t with _ | t'
      · rw [ht] at h; cases h
      · rw [ht] at h
        cases h
        rcases List.mem_cons.1 hb with rfl | hbt
        · exact ⟨a, by simp, ha⟩
        · rcases ih ht b hbt with ⟨a', ha', hfa'⟩
          exact ⟨a', by simp [ha'], hfa'⟩

theorem foldl_map_tryDel {α : Type} (exs : List String) :
    ∀ os : List (Bundle α),
      exs.foldl (fun os k => os.map (tryDel k)) os = os.map (applyExcludes exs) := by
  induction exs with
  | nil =>
    intro os
    rw [List.foldl_nil]
    conv_rhs => rw [show applyExcludes ([] : List String) = (fun d : Bundle α => d) from rfl]
    rw [List.map_id']
  | cons e es ih =>
    intro os
    rw [List.foldl_cons, ih (os.map (tryDel e)), List.map_map]
    apply List.map_congr_left
    intro d _
    rfl

/-- `alter_list` is the shape phase followed by the per-record excludes
deletions. -/
theorem alter_list_eq {α : Type} (shapeType? excludes? : Option String)
    (objs : List (Bundle α)) :
    alter_list shapeType? excludes? objs =
      (mapOpt (shapePhase (shapeType?.getD "simple")) objs).map
        (fun objs1 => objs1.map (applyExcludes (parseExcludes excludes?))) := by
  rcases hm : mapOpt (shapePhase (shapeType?.getD "simple")) objs with _ | objs1
  · simp only [alter_list, hm]
    rfl
  · simp only [alter_list, hm, Option.map_some]
    by_cases he : (parseExcludes excludes?).isEmpty
    · have hnil : parseExcludes excludes? = [] := by
        cases hpe : parseExcludes excludes?
        · rfl
        · rw [hpe] at he; cases he
      rw [if_pos he, hnil]
      simp [show applyExcludes ([] : List String) = (fun d : Bundle α => d) from rfl]
    · rw [if_neg he, foldl_map_tryDel]
      rfl

end BoundarySvc

namespace BoundarySvc

/-! ### Pattern-slug lemmas -/

theorem endStr_length (n : Nat) : (endStr n).length = 1 + (pyStr n).length := by
  rw [endStr, len_app]
  rfl

theorem endStr_len_ge_two (n : Nat) : 2 ≤ (endStr n).length := by
  rw [endStr_length]
  have := pyStr_ne_empty n
  have : 1 ≤ (pyStr n).data.length := by
    cases hd : (pyStr n).data
    · exact absurd hd this
    · simp
  rw [len_data]
  omega

theorem append_endStr_ne_self (base : String) (n : Nat) :
    base ++ endStr n ≠ base := by
  intro h
  have := congrArg String.length h
  rw [len_app] at this
  have h2 := endStr_len_ge_two n
  omega

theorem append_endStr_ne_empty (base : String) (n : Nat) :
    base ++ endStr n ≠ "" := by
  intro h
  have := congrArg String.length h
  rw [len_app] at this
  have h2 := endStr_len_ge_two n
  have : ("" : String).length = 0 := rfl
  omega

theorem append_endStr_inj {base : String} {m n : Nat}
    (h : base ++ endStr m = base ++ endStr n) : m = n := by
  have hd := congrArg String.data h
  rw [data_app, data_app] at hd
  exact endStr_inj (str_ext (List.append_cancel_left hd))

theorem candidate_no_trunc {base : String} {n : Nat}
    (h : base.length + (endStr n).length ≤ 256) :
    candidate base n = base ++ endStr n := by
  rw [candidate, truncBase, if_neg (by omega)]

theorem patSlug_one (base : String) : patSlug base 1 = base := rfl

theorem patSlug_of_ge_two {base : String} {j : Nat} (h : 2 ≤ j) :
    patSlug base j = base ++ endStr j := by
  rw [patSlug, if_neg (by omega)]

theorem patSlug_inj {base : String} {j j' : Nat}
    (hj : 1 ≤ j) (hj' : 1 ≤ j') (h : patSlug base j = patSlug base j') : j = j' := by
  by_cases h1 : j ≤ 1
  · by_cases h2 : j' ≤ 1
    · omega
    · rw [patSlug, if_pos h1, patSlug, if_neg h2] at h
      exact absurd h.symm (append_endStr_ne_self base j')
  · by_cases h2 : j' ≤ 1
    · rw [patSlug, if_neg h1, patSlug, if_pos h2] at h
      exact absurd h (append_endStr_ne_self base j)
    · rw [patSlug, if_neg h1, patSlug, if_neg h2] at h
      exact append_endStr_inj h

theorem patList_length (base : String) : ∀ k, (patList base k).length = k
  | 0 => rfl
  | k + 1 => by rw [patList, List.length_cons, patList_length base k]

theorem patList_mem (base : String) :
    ∀ k s, s ∈ patList base k ↔ ∃ j, 1 ≤ j ∧ j ≤ k ∧ s = patSlug base j := by
  intro k
  induction k with
  | zero =>
    intro s
    constructor
    · intro h; cases h
    · rintro ⟨j, hj1, hj2, _⟩; omega
  | succ k ih =>
    intro s
    rw [patList, List.mem_cons, ih]
    constructor
    · rintro (rfl | ⟨j, hj1, hj2, rfl⟩)
      · exact ⟨k + 1, by omega, by omega, rfl⟩
      · exact ⟨j, hj1, by omega, rfl⟩
    · rintro ⟨j, hj1, hj2, rfl⟩
      by_cases hj : j = k + 1
      · subst hj; exact Or.inl rfl
      · exact Or.inr ⟨j, hj1, by omega, rfl⟩

theorem patList_nodup (base : String) : ∀ k, (patList base k).Nodup
  | 0 => List.nodup_nil
  | k + 1 => by
    rw [patList]
    refine List.Nodup.cons ?_ (patList_nodup base k)
    intro hmem
    rcases (patList_mem base k _).1 hmem with ⟨j, hj1, hj2, heq⟩
    have := patSlug_inj (by omega : 1 ≤ k + 1) hj1 heq
    omega

end BoundarySvc

namespace BoundarySvc

/-! ### Iterated saves with identical candidate text -/

theorem unique_slug_blank (txt : String) (existing : List String) :
    unique_slug "" (some txt) existing =
      if existing.count (slugify txt) = 0 then slugify txt
      else slugLoop (slugify txt) existing (existing.length + 1) 2 := by
  simp only [unique_slug, ne_eq, not_true_eq_false, if_false]

theorem save_eq_ok {slug s : String} {slugTxt : Option String}
    {existing : List String} (h : unique_slug slug slugTxt existing = s)
    (hs : s ≠ "") : save slug slugTxt existing = .ok s := by
  simp only [save, h, if_neg hs]

theorem saveSeq_eq_patList (txt base : String) (N : Nat)
    (hb : slugify txt = base) (hne : base ≠ "")
    (hlen : ∀ n, n ≤ N → base.length + (endStr n).length ≤ 256) :
    ∀ k, k ≤ N → saveSeq txt k = patList base k := by
  intro k
  induction k with
  | zero => intro _; rfl
  | succ k ih =>
    intro hkN
    have hprev : saveSeq txt k = patList base k := ih (by omega)
    have hu : unique_slug "" (some txt) (patList base k) = patSlug base (k + 1) := by
      rw [unique_slug_blank, hb]
      match k with
      | 0 =>
        rw [if_pos (by simp [patList])]
        rfl
      | m + 1 =>
        have hmem : base ∈ patList base (m + 1) :=
          (patList_mem base (m + 1) base).2 ⟨1, le_refl 1, by omega, (patSlug_one base).symm⟩
        rw [if_neg (by
          intro hzero
          exact absurd hmem (List.count_eq_zero.1 hzero))]
        have hfree : candidate base (2 + (m + 1 - 1)) ∉ patList base (m + 1) := by
          rw [show 2 + (m + 1 - 1) = m + 2 by omega,
            candidate_no_trunc (hlen (m + 2) (by omega))]
          intro hmem2
          rcases (patList_mem base (m + 1) _).1 hmem2 with ⟨j, hj1, hj2, heq⟩
          by_cases hj : j ≤ 1
          · rw [patSlug, if_pos hj] at heq
            exact absurd heq (append_endStr_ne_self base (m + 2))
          · rw [patSlug, if_neg hj] at heq
            have := append_endStr_inj heq
            omega
        have hbusy : ∀ j < m + 1 - 1, candidate base (2 + j) ∈ patList base (m + 1) := by
          intro j hj
          rw [candidate_no_trunc (hlen (2 + j) (by omega))]
          exact (patList_mem base (m + 1) _).2
            ⟨2 + j, by omega, by omega, (patSlug_of_ge_two (by omega)).symm⟩
        have hloop := slugLoop_eq base (patList base (m + 1)) (m + 1 - 1)
          ((patList base (m + 1)).length + 1) 2
          (by rw [patList_length]; omega) hfree hbusy
        rw [hloop, show 2 + (m + 1 - 1) = m + 2 by omega,
          candidate_no_trunc (hlen (m + 2) (by omega)),
          patSlug_of_ge_two (by omega : 2 ≤ m + 2)]
    have hsne : patSlug base (k + 1) ≠ "" := by
      match k with
      | 0 => rw [patSlug_one]; exact hne
      | m + 1 =>
        rw [patSlug_of_ge_two (by omega)]
        exact append_endStr_ne_empty base (m + 2)
    rw [saveSeq, hprev, save_eq_ok hu hsne, patList]

/-- The per-save slugs of N identical-text saves: helper packaging of the
full characterization. -/
theorem saveSeq_spec (txt base : String) (N : Nat)
    (hb : slugify txt = base) (hne : base ≠ "")
    (hlen : ∀ n, n ≤ N → base.length + (endStr n).length ≤ 256) :
    saveSeq txt N = patList base N ∧ (saveSeq txt N).Nodup ∧
      (saveSeq txt N).length = N := by
  have h := saveSeq_eq_patList txt base N hb hne hlen N (le_refl N)
  exact ⟨h, h ▸ patList_nodup base N, h ▸ patList_length base N⟩

end BoundarySvc

namespace BoundarySvc

/-! ### Remaining helpers for the claims -/

theorem takeWhile_append_all {α : Type} (p : α → Bool) :
    ∀ l1 l2 : List α, (∀ c ∈ l1, p c = true) →
      (l1 ++ l2).takeWhile p = l1 ++ l2.takeWhile p := by
  intro l1
  induction l1 with
  | nil => intro l2 _; rfl
  | cons c cs ih =>
    intro l2 h
    rw [List.cons_append, List.takeWhile_cons, h c (by simp)]
    simp only [if_true]
    rw [ih l2 (fun x hx => h x (by simp [hx])), List.cons_append]

theorem takeWhile_head_false {α : Type} (p : α → Bool) (l : List α)
    (h : ∀ c ∈ l.head?, p c = false) : l.takeWhile p = [] := by
  cases l with
  | nil => rfl
  | cons c cs =>
    rw [List.takeWhile_cons, h c (by simp)]
    simp

/-- The three mutual-exclusion facts about a record that went through the
shape phase, per requested shape type. -/
theorem shapePhase_triple {α : Type} {st : String} {d d' : Bundle α}
    (h : shapePhase st d = some d') :
    (st = "simple" → d'.lookup "shape" = none) ∧
    (st = "full" → d'.lookup "simple_shape" = none) ∧
    (st = "none" → d'.lookup "shape" = none ∧ d'.lookup "simple_shape" = none) := by
  refine ⟨?_, ?_, ?_⟩
  · rintro rfl
    exact shapePhase_shape_none h (by decide)
  · rintro rfl
    exact shapePhase_simple_shape_none h (by decide)
  · rintro rfl
    exact ⟨shapePhase_shape_none h (by decide),
      shapePhase_simple_shape_none h (by decide)⟩

/-- When the requested shape type is neither `simple` nor `full`, the shape
phase coincides with the `none` behavior. -/
theorem shapePhase_default {α : Type} {st : String}
    (h1 : st ≠ "simple") (h2 : st ≠ "full") (d : Bundle α) :
    shapePhase st d = shapePhase "none" d := by
  rw [shapePhase, shapePhase, if_pos h1, if_pos (by decide : ("none" : String) ≠ "simple")]
  rcases pyDel "simple_shape" d with _ | d1
  · rfl
  · simp only [if_pos h2, if_pos (by decide : ("none" : String) ≠ "full")]

theorem mapOpt_congr {α β : Type} {f g : α → Option β}
    (h : ∀ a, f a = g a) : ∀ l : List α, mapOpt f l = mapOpt g l := by
  intro l
  induction l with
  | nil => rfl
  | cons a t ih => rw [mapOpt, mapOpt, h a, ih]

theorem count_pos_of_mem {a : String} {l : List String}
    (h : a ∈ l) : l.count a ≠ 0 := by
  intro hzero
  exact absurd h (List.count_eq_zero.1 hzero)

end BoundarySvc

namespace BoundarySvc

/-! ### The claims -/

/-- C1: for any sequence of N entities saved with identical candidate slug
text (whose base slug plus suffix stays under the 256-character ceiling, so
no truncation occurs), the slug resolver assigns N distinct slugs following
the pattern `base`, `base-2`, …, `base-N`; each collision candidate is
rebuilt from the original base (`patSlug`), never stacking suffixes. -/
theorem C1_slug_uniqueness_sequence (txt base : String) (N : Nat)
    (hb : slugify txt = base) (hne : base ≠ "")
    (hlen : ∀ n, n ≤ N → base.length + (endStr n).length ≤ 256) :
    saveSeq txt N = patList base N ∧ (saveSeq txt N).Nodup ∧
      (saveSeq txt N).length = N :=
  saveSeq_spec txt base N hb hne hlen

theorem C1_witness :
    slugify "Ward" = "ward" ∧ ("ward" : String) ≠ "" ∧
    saveSeq "Ward" 3 = patList "ward" 3 ∧ (saveSeq "Ward" 3).Nodup ∧
      (saveSeq "Ward" 3).length = 3 ∧
      saveSeq "Ward" 3 = ["ward-3", "ward-2", "ward"] := by
  have h1 : slugify "Ward" = "ward" := by decide
  have h2 : ("ward" : String) ≠ "" := by decide
  have h3 : ∀ n, n ≤ 3 → ("ward" : String).length + (endStr n).length ≤ 256 := by decide
  have h := C1_slug_uniqueness_sequence "Ward" "ward" 3 h1 h2 h3
  exact ⟨h1, h2, h.1, h.2.1, h.2.2, by decide⟩

/-- C7: an entity whose slug field is already non-empty keeps it unchanged on
save: `unique_slug` returns the stored slug and `save` persists exactly it. -/
theorem C7_nonempty_slug_preserved (slug : String) (slugTxt : Option String)
    (existing : List String) (h : slug ≠ "") :
    unique_slug slug slugTxt existing = slug ∧
      save slug slugTxt existing = .ok slug := by
  have hu : unique_slug slug slugTxt existing = slug := by
    unfold unique_slug
    rw [if_pos h]
  exact ⟨hu, save_eq_ok hu h⟩

theorem C7_witness :
    unique_slug "austin-community-area" (some "Other Text") ["austin-community-area"] =
      "austin-community-area" ∧
    save "austin-community-area" (some "Other Text") ["austin-community-area"] =
      .ok "austin-community-area" :=
  C7_nonempty_slug_preserved "austin-community-area" (some "Other Text")
    ["austin-community-area"] (by decide)

/-- C9: saving an entity whose candidate text normalizes to an empty slug
(or that has no text source at all) fails with the dedicated blank-slug
error (`raise ValueError("Slug may not be blank …")`, the spec's
`InvalidInputError`), and a successful save never persists an empty slug. -/
theorem C9_blank_slug_never_persisted (slug : String) (slugTxt : Option String)
    (existing : List String) :
    (slug = "" → "" ∉ existing →
      (slugTxt = none ∨ ∃ t, slugTxt = some t ∧ slugify t = "") →
      save slug slugTxt existing = .error .blankSlug) ∧
    (∀ s, save slug slugTxt existing = .ok s → s ≠ "") := by
  constructor
  · rintro rfl hnm (rfl | ⟨t, rfl, ht⟩)
    · have hu : unique_slug "" none existing = "" := by
        unfold unique_slug
        simp
      simp [save, hu]
    · have hu : unique_slug "" (some t) existing = "" := by
        rw [unique_slug_blank, ht, if_pos (List.count_eq_zero.2 hnm)]
      simp [save, hu]
  · intro s hs hse
    subst hse
    simp only [save] at hs
    by_cases h0 : unique_slug slug slugTxt existing = ""
    · rw [if_pos h0] at hs
      cases hs
    · rw [if_neg h0] at hs
      exact h0 (Except.ok.inj hs)

theorem C9_witness :
    save "" (some "!!!") [] = .error .blankSlug ∧
    save "" none [] = .error .blankSlug := by
  have h1 := (C9_blank_slug_never_persisted "" (some "!!!") []).1 rfl
    (by decide) (Or.inr ⟨"!!!", rfl, by decide⟩)
  have h2 := (C9_blank_slug_never_persisted "" none []).1 rfl
    (by decide) (Or.inl rfl)
  exact ⟨h1, h2⟩

end BoundarySvc

namespace BoundarySvc

/-- A 255-character base slug used to exercise the truncation path. -/
def longBase : String := ⟨List.replicate 255 'a'⟩

set_option maxRecDepth 8000 in
/-- C6: when the normalized base slug is near the 256-character ceiling (so
that appending any numeric suffix overflows it), the resolver truncates the
base to `200 - len(suffix)` characters (`Nat` subtraction, i.e. exactly
`max(0, 200 - len(suffix))`) before appending; the resulting slug is not
among the existing slugs and is at most 256 characters long. The bound on
`existing.length` reflects that the loop inspects at most one suffix per
existing slug, keeping the suffix under 200 characters. -/
theorem C6_truncated_slug (txt base : String) (existing : List String)
    (hb : slugify txt = base) (hbig : 255 ≤ base.length)
    (hcol : base ∈ existing) (hsize : existing.length ≤ 10 ^ 100) :
    unique_slug "" (some txt) existing ∉ existing ∧
    (unique_slug "" (some txt) existing).length ≤ 256 ∧
    ∃ n, 2 ≤ n ∧ (endStr n).length ≤ 200 ∧
      unique_slug "" (some txt) existing =
        String.mk (base.data.take (200 - (endStr n).length)) ++ endStr n ∧
      (String.mk (base.data.take (200 - (endStr n).length))).length =
        200 - (endStr n).length := by
  rw [unique_slug_blank, hb, if_neg (count_pos_of_mem hcol)]
  rcases exists_free_candidate base existing with ⟨k, hkL, hkfree⟩
  rcases slugLoop_spec base existing (existing.length + 1) 2 ⟨k, by omega, hkfree⟩
    with ⟨k', hk', heq, hfree⟩
  have hpl : (pyStr (2 + k')).length ≤ 101 := by
    apply pyStr_length_le (by norm_num)
    calc 2 + k' ≤ 2 + (existing.length + 1) := by omega
      _ ≤ 10 ^ 100 + 3 := by omega
      _ < 10 ^ 101 := by norm_num
  have hel : (endStr (2 + k')).length ≤ 102 := by
    rw [endStr_length]; omega
  have hel2 := endStr_len_ge_two (2 + k')
  have htoNat : ((200 : Int) - ((endStr (2 + k')).length : Int)).toNat =
      200 - (endStr (2 + k')).length := by omega
  have hcand : candidate base (2 + k') =
      String.mk (base.data.take (200 - (endStr (2 + k')).length)) ++ endStr (2 + k') := by
    have hif : truncBase base (2 + k') =
        String.mk (base.data.take (200 - (endStr (2 + k')).length)) := by
      unfold truncBase
      rw [if_pos (by omega)]
      unfold pyTake
      rw [if_pos (by omega : (0 : Int) ≤ 200 - ((endStr (2 + k')).length : Int)), htoNat]
    unfold candidate
    rw [hif]
  have htklen : (String.mk (base.data.take (200 - (endStr (2 + k')).length))).length =
      200 - (endStr (2 + k')).length := by
    rw [len_data]
    simp only [List.length_take]
    rw [len_data] at hbig
    omega
  have hclen : (candidate base (2 + k')).length = 200 := by
    rw [hcand, len_app, htklen]
    omega
  refine ⟨?_, ?_, 2 + k', by omega, by omega, ?_, htklen⟩
  · rw [heq]; exact hfree
  · rw [heq]; omega
  · rw [heq]; exact hcand

set_option maxRecDepth 8000 in
theorem C6_witness :
    slugify longBase = longBase ∧ longBase ∈ [longBase] ∧
    unique_slug "" (some longBase) [longBase] ∉ [longBase] ∧
    (unique_slug "" (some longBase) [longBase]).length ≤ 256 ∧
    ∃ n, 2 ≤ n ∧ (endStr n).length ≤ 200 ∧
      unique_slug "" (some longBase) [longBase] =
        String.mk (longBase.data.take (200 - (endStr n).length)) ++ endStr n ∧
      (String.mk (longBase.data.take (200 - (endStr n).length))).length =
        200 - (endStr n).length := by
  have h1 : slugify longBase = longBase := by decide
  have h2 : longBase ∈ [longBase] := by decide
  have h := C6_truncated_slug longBase longBase [longBase] h1 (by decide) h2
    (by norm_num)
  exact ⟨h1, h2, h.1, h.2.1, h.2.2⟩

end BoundarySvc

namespace BoundarySvc

/-- C2 counterexample: on the spec's own example `near=41.88,-87.63,mi`
(distance with no leading digit), `build_filters` does not raise a dedicated
malformed-filter error — `re.match('([0-9]+)', range)` returns `None` and
`.group(1)` raises an unhandled `AttributeError`. The repository defines no
`InvalidFilterError` at all, so the failure is an unhandled internal
exception, contradicting the claim as stated. -/
theorem C2_counterexample :
    near_translate "41.88,-87.63,mi" = .error .attributeError := by decide

/-- C2 amended: translating a `near` filter whose distance component has no
leading digit fails with an unhandled `AttributeError` (from calling
`.group(1)` on `None`), not with a dedicated malformed-filter error. -/
theorem C2_near_no_digit_crashes (v lat lon rng : String)
    (hsplit : pySplit v ',' = [lat, lon, rng])
    (hnd : rng.data.takeWhile isDig = []) :
    near_translate v = .error .attributeError := by
  simp only [near_translate, hsplit, hnd]
  rfl

theorem C2_witness :
    pySplit "41.88,-87.63,mi" ',' = ["41.88", "-87.63", "mi"] ∧
    ("mi" : String).data.takeWhile isDig = [] ∧
    near_translate "41.88,-87.63,mi" = .error .attributeError := by
  have h1 : pySplit "41.88,-87.63,mi" ',' = ["41.88", "-87.63", "mi"] := by decide
  have h2 : ("mi" : String).data.takeWhile isDig = [] := by decide
  exact ⟨h1, h2, C2_near_no_digit_crashes "41.88,-87.63,mi" "41.88" "-87.63" "mi" h1 h2⟩

/-- C8: a well-formed `near` filter is parsed as leading digits = magnitude
(as an integer, `int(numeral)`) and the trailing rest = unit, and the WKT
point `POINT(lon lat)` together with the `D(**{unit: numeral})` distance is
passed to the `shape__distance_lte` predicate. -/
theorem C8_near_wellformed (v lat lon ds us : String)
    (hsplit : pySplit v ',' = [lat, lon, ds ++ us])
    (hne : ds.data ≠ [])
    (hdig : ∀ c ∈ ds.data, isDig c = true)
    (hhead : ∀ c ∈ us.data.head?, isDig c = false) :
    near_translate v =
      .ok ⟨"POINT(" ++ lon ++ " " ++ lat ++ ")", us, digitsVal ds.data⟩ := by
  have hdata : (ds ++ us).data = ds.data ++ us.data := data_app ds us
  have htw : (ds ++ us).data.takeWhile isDig = ds.data := by
    rw [hdata, takeWhile_append_all isDig ds.data us.data hdig,
      takeWhile_head_false isDig us.data hhead, List.append_nil]
  have hie : ds.data.isEmpty = false := by
    cases hd : ds.data
    · exact absurd hd hne
    · rfl
  have hdrop : (ds ++ us).data.drop ds.data.length = us.data := by
    rw [hdata]
    exact List.drop_left ds.data us.data
  simp only [near_translate, hsplit, htw, hie]
  simp only [Bool.false_eq_true, if_false]
  rw [hdrop]

theorem C8_witness :
    near_translate "41.88,-87.63,5mi" = .ok ⟨"POINT(-87.63 41.88)", "mi", 5⟩ := by
  have h := C8_near_wellformed "41.88,-87.63,5mi" "41.88" "-87.63" "5" "mi"
    (by decide) (by decide) (by decide) (by decide)
  rw [h]
  rfl

end BoundarySvc

namespace BoundarySvc

/-- C3: for every record successfully shaped at a given detail level, the
geometry fields are mutually exclusive — `shape_type=simple` leaves no
`shape` field, `shape_type=full` no `simple_shape`, `shape_type=none`
neither — on both the detail path and the list path, and an absent
`shape_type` parameter defaults to `simple`. -/
theorem C3_shape_fields_exclusive {α : Type} (st? ex? : Option String) :
    (∀ d d' : Bundle α, alter_detail st? d = some d' →
      (st?.getD "simple" = "simple" → d'.lookup "shape" = none) ∧
      (st?.getD "simple" = "full" → d'.lookup "simple_shape" = none) ∧
      (st?.getD "simple" = "none" →
        d'.lookup "shape" = none ∧ d'.lookup "simple_shape" = none)) ∧
    (∀ objs objs' : List (Bundle α), alter_list st? ex? objs = some objs' →
      ∀ d' ∈ objs',
        (st?.getD "simple" = "simple" → d'.lookup "shape" = none) ∧
        (st?.getD "simple" = "full" → d'.lookup "simple_shape" = none) ∧
        (st?.getD "simple" = "none" →
          d'.lookup "shape" = none ∧ d'.lookup "simple_shape" = none)) ∧
    (∀ d : Bundle α, alter_detail none d = alter_detail (some "simple") d) := by
  refine ⟨?_, ?_, fun d => rfl⟩
  · intro d d' h
    exact shapePhase_triple h
  · intro objs objs' h d' hd'
    rw [alter_list_eq] at h
    rcases hm : mapOpt (shapePhase (st?.getD "simple")) objs with _ | objs1
    · rw [hm] at h; cases h
    · rw [hm] at h
      have h2 : some (objs1.map (applyExcludes (parseExcludes ex?))) = some objs' := h
      cases h2
      rcases List.mem_map.1 hd' with ⟨d1, hd1, rfl⟩
      rcases mapOpt_mem hm d1 hd1 with ⟨d0, _, hph⟩
      have ht := shapePhase_triple hph
      refine ⟨fun hs => ?_, fun hs => ?_, fun hs => ?_⟩
      · exact applyExcludes_lookup_none _ _ d1 (ht.1 hs)
      · exact applyExcludes_lookup_none _ _ d1 (ht.2.1 hs)
      · exact ⟨applyExcludes_lookup_none _ _ d1 ((ht.2.2 hs).1),
          applyExcludes_lookup_none _ _ d1 ((ht.2.2 hs).2)⟩

theorem C3_witness :
    alter_detail (α := String) (some "none")
        [("shape", "g"), ("simple_shape", "h"), ("name", "x")] =
      some [("name", "x")] ∧
    List.lookup "shape" [(("name" : String), ("x" : String))] = none ∧
    List.lookup "simple_shape" [(("name" : String), ("x" : String))] = none := by
  have hd : alter_detail (α := String) (some "none")
      [("shape", "g"), ("simple_shape", "h"), ("name", "x")] =
      some [("name", "x")] := by decide
  have h := (C3_shape_fields_exclusive (α := String) (some "none") none).1
    [("shape", "g"), ("simple_shape", "h"), ("name", "x")] [("name", "x")] hd
  exact ⟨hd, (h.2.2 rfl).1, (h.2.2 rfl).2⟩

/-- C4 counterexample: with `shape_type` absent and `excludes=name`, the
list path removes the `name` field but the detail path keeps it — the two
paths do not apply identical semantics to the same record. -/
theorem C4_counterexample :
    alter_list (α := String) none (some "name")
        [[("name", "x"), ("simple_shape", "s"), ("shape", "g")]] ≠
      (alter_detail (α := String) none
        [("name", "x"), ("simple_shape", "s"), ("shape", "g")]).map
        (fun d => [d]) := by decide

/-- C4 amended: the two response paths share the shape-type semantics — the
detail path is exactly the shape phase — but the caller-supplied excludes
list is honored only on the list path, which is the shape phase followed by
the per-record excludes deletions; the detail path ignores `excludes`
entirely. -/
theorem C4_amended_detail_ignores_excludes {α : Type} (st? ex? : Option String)
    (d : Bundle α) (objs : List (Bundle α)) :
    alter_detail st? d = shapePhase (st?.getD "simple") d ∧
    alter_list st? ex? objs =
      (mapOpt (shapePhase (st?.getD "simple")) objs).map
        (fun os => os.map (applyExcludes (parseExcludes ex?))) :=
  ⟨rfl, alter_list_eq st? ex? objs⟩

/-- C5: excludes-list deletion is best-effort and total — a listed name
absent from the record is silently ignored, the excludes phase can never
make the shaping fail (failure can only come from the shape phase), and
every field not named in the list keeps its value. -/
theorem C5_excludes_best_effort {α : Type} (k f : String) (exs : List String)
    (d : Bundle α) (st? ex? : Option String) (objs : List (Bundle α)) :
    (d.lookup k = none → tryDel k d = d) ∧
    (f ∉ exs → (applyExcludes exs d).lookup f = d.lookup f) ∧
    (alter_list st? ex? objs).isSome =
      (mapOpt (shapePhase (st?.getD "simple")) objs).isSome := by
  refine ⟨tryDel_of_absent k d, fun hf => applyExcludes_lookup_not_mem hf d, ?_⟩
  rw [alter_list_eq]
  rcases mapOpt (shapePhase (st?.getD "simple")) objs with _ | objs1 <;> rfl

theorem C5_witness :
    tryDel "bogus_field" [(("name" : String), ("x" : String))] = [("name", "x")] ∧
    (applyExcludes ["bogus_field"] [(("name" : String), ("x" : String))]).lookup "name" =
      List.lookup "name" [(("name" : String), ("x" : String))] ∧
    (alter_list (α := String) (some "simple") (some "bogus_field")
        [[("simple_shape", "s"), ("shape", "g"), ("name", "x")]]).isSome =
      (mapOpt (shapePhase "simple")
        [[("simple_shape", "s"), ("shape", "g"), ("name", "x")]]).isSome := by
  have h := C5_excludes_best_effort (α := String) "bogus_field" "name" ["bogus_field"]
    [("name", "x")] (some "simple") (some "bogus_field")
    [[("simple_shape", "s"), ("shape", "g"), ("name", "x")]]
  exact ⟨h.1 (by decide), h.2.1 (by decide), h.2.2⟩

/-- C10: `shape_type` is matched case-sensitively against exactly `simple`
and `full`; any other value behaves exactly like `shape_type=none` on both
paths, removing both geometry fields from every successfully shaped record
instead of rejecting the request. -/
theorem C10_unrecognized_shape_type {α : Type} (st : String) (ex? : Option String)
    (h1 : st ≠ "simple") (h2 : st ≠ "full") :
    (∀ d : Bundle α, alter_detail (some st) d = alter_detail (some "none") d) ∧
    (∀ objs : List (Bundle α),
      alter_list (some st) ex? objs = alter_list (some "none") ex? objs) ∧
    (∀ d d' : Bundle α, alter_detail (some st) d = some d' →
      d'.lookup "shape" = none ∧ d'.lookup "simple_shape" = none) := by
  have hsp : ∀ d : Bundle α, shapePhase st d = shapePhase "none" d :=
    shapePhase_default h1 h2
  refine ⟨fun d => hsp d, ?_, ?_⟩
  · intro objs
    rw [alter_list_eq, alter_list_eq]
    rw [show (some st).getD "simple" = st from rfl,
      show (some "none").getD "simple" = "none" from rfl,
      mapOpt_congr hsp objs]
  · intro d d' h
    have h' : shapePhase st d = some d' := h
    exact ⟨shapePhase_shape_none h' h2, shapePhase_simple_shape_none h' h1⟩

theorem C10_witness :
    alter_detail (α := String) (some "bogus")
        [("shape", "g"), ("simple_shape", "h"), ("name", "x")] =
      alter_detail (some "none") [("shape", "g"), ("simple_shape", "h"), ("name", "x")] ∧
    alter_list (α := String) (some "Simple") (some "")
        [[("shape", "g"), ("simple_shape", "h")]] =
      alter_list (some "none") (some "") [[("shape", "g"), ("simple_shape", "h")]] ∧
    alter_detail (α := String) (some "FULL")
        [("shape", "g"), ("simple_shape", "h")] = some [] := by
  have hA := C10_unrecognized_shape_type (α := String) "bogus" (some "")
    (by decide) (by decide)
  have hB := C10_unrecognized_shape_type (α := String) "Simple" (some "")
    (by decide) (by decide)
  exact ⟨hA.1 _, hB.2.1 _, by decide⟩

end BoundarySvc
